import Mathlib

/-!
Verification development for the mailsink repository (Go, single source file
`mailsink.go`).  The e-mail decomposition pipeline, the persistence triggers,
the HTTP handlers and the ingestion handler are shallowly embedded as Lean
functions translated from the Go source; the Go standard-library routines they
call (`net/mail.ReadMessage`, `net/textproto`, `mime.ParseMediaType`,
`strings.*`) are translated from the Go 1.23 standard library at the points
the claims depend on.  Go strings are modelled as lists of characters
(`Str`); the byte-level operations used here agree with this character-level
model on all valid UTF-8 inputs.
-/

namespace Mailsink

abbrev Str := List Char

/-- The character set trimmed by the internal `trim` of Go `net/textproto`:
ASCII space and horizontal tab only. -/
def isSpaceTabChar (c : Char) : Bool := c == ' ' || c == '\t'

/-- Go `unicode.IsSpace`: exactly the Unicode white-space code points
(9-13, 32, U+0085, U+00A0, U+1680, U+2000-U+200A, U+2028, U+2029, U+202F,
U+205F, U+3000). -/
def goIsSpace (c : Char) : Bool :=
  c == ' ' || c == '\t' || c == '\n' || c == '\r' ||
  c.toNat == 11 || c.toNat == 12 ||
  c.toNat == 133 || c.toNat == 160 || c.toNat == 5760 ||
  (8192 ≤ c.toNat && c.toNat ≤ 8202) ||
  c.toNat == 8232 || c.toNat == 8233 || c.toNat == 8239 ||
  c.toNat == 8287 || c.toNat == 12288

/-- Drop the trailing run of characters satisfying `p` (right-hand analogue
of `List.dropWhile`). -/
def rtrimWith (p : Char → Bool) (l : Str) : Str := (l.reverse.dropWhile p).reverse

/-- Trim characters satisfying `p` from both ends of a string. -/
def trimWith (p : Char → Bool) (l : Str) : Str := (rtrimWith p l).dropWhile p

/-- Go `strings.TrimSpace`. -/
def goTrimSpace (l : Str) : Str := trimWith goIsSpace l

/-- The `trim` helper of Go `net/textproto` (spaces and tabs, both ends). -/
def trimST (l : Str) : Str := trimWith isSpaceTabChar l

/-- Go `strings.Contains needle hay` (here: `containsSub needle hay`). -/
def containsSub (needle : Str) : Str → Bool
  | [] => needle.isEmpty
  | c :: cs => needle.isPrefixOf (c :: cs) || containsSub needle cs

/-- Go `strings.Split raw "\n"`. -/
def splitNl : Str → List Str
  | [] => [[]]
  | c :: cs =>
    if c = '\n' then [] :: splitNl cs
    else
      match splitNl cs with
      | [] => [[c]]
      | l :: ls => (c :: l) :: ls

/-! ## The MIME decomposer (`parseEmail` / `parseEmailSimple`, mailsink.go 197-276)

`parseEmail` first attempts a structured parse with `net/mail.ReadMessage`
(modelled below, following `net/mail.readHeader` and `net/textproto` of the
Go 1.23 standard library), and falls back to `parseEmailSimple` when that
parse fails.  The two standard-library components that are irrelevant to the
claims are abstracted as function parameters of `parseEmail`:

* `bnd` models `mime.ParseMediaType` parameter parsing restricted to its use
  here, mapping the Content-Type value to `params["boundary"]`, or `none`
  when parameter parsing fails (`ErrInvalidMediaParameter`);
* `mp` models `multipart.NewReader(...).NextPart()` iteration: given the
  boundary and the message body it yields the successfully read parts, each
  with the part Content-Type header value and the part content.

All theorems quantify over every behaviour of these two parameters, which
subsumes the behaviour of the real library code. -/

namespace Parse

/-- One line as consumed by `bufio.Reader.ReadLine`: content up to the first
newline (newline consumed, not returned), the rest of the input, and whether
a newline was found.  At end of input the partial line is returned. -/
def readRawLine : Str → Str × Str × Bool
  | [] => ([], [], false)
  | c :: cs =>
    if c = '\n' then ([], cs, true)
    else
      let r := readRawLine cs
      (c :: r.1, r.2.1, r.2.2)

/-- `textproto.Reader.readLineSlice` via `bufio.ReadLine`: a carriage return
immediately preceding the newline is dropped. -/
def readLine (s : Str) : Str × Str :=
  let r := readRawLine s
  if r.2.2 then
    (if r.1.getLast? = some '\r' then r.1.dropLast else r.1, r.2.1)
  else (r.1, r.2.1)

/-- The continuation-line loop of `textproto.readContinuedLineSlice`: while
the next character is a space or tab (`skipSpace() > 0`), consume the run of
spaces/tabs, read the rest of that line, and append a single space followed
by the line trimmed of spaces/tabs.  Reading stops at end of input
(`readLineSlice` returns an error there).  `fuel` only bounds the recursion;
the wrapper passes more fuel than the input length so it never runs out. -/
def readContLoop : Nat → Str → Str × Str
  | 0, s => ([], s)
  | _ + 1, [] => ([], [])
  | fuel + 1, c :: cs =>
    if isSpaceTabChar c then
      let cs2 := cs.dropWhile isSpaceTabChar
      if cs2.isEmpty then ([], cs2)
      else
        let r := readLine cs2
        let rec2 := readContLoop fuel r.2
        (' ' :: (trimST r.1 ++ rec2.1), rec2.2)
    else ([], c :: cs)

/-- `textproto.Reader.readContinuedLineSlice`: first line trimmed of
spaces/tabs, continuation lines folded with single spaces.  On an empty
input (`readLineSlice` end-of-input error) the empty line is returned. -/
def readContinuedLine (fuel : Nat) (s : Str) : Str × Str :=
  if s.isEmpty then ([], [])
  else
    let r := readLine s
    if r.1.isEmpty then ([], r.2)
    else
      let rec2 := readContLoop fuel r.2
      (trimST r.1 ++ rec2.1, rec2.2)

/-- Header map of `net/mail.readHeader`: insertion-ordered association list
from canonical key to the list of values in order of appearance. -/
abbrev Hdr := List (Str × List Str)

/-- `m[key] = append(m[key], value)` on the association list. -/
def headerAdd (m : Hdr) (k : Str) (v : Str) : Hdr :=
  match m with
  | [] => [(k, [v])]
  | (k0, vs) :: rest =>
    if k0 = k then (k0, vs ++ [v]) :: rest else (k0, vs) :: headerAdd rest k v

/-- `strings.Cut kv ":"`: split at the first colon, `none` if there is none. -/
def cutColon : Str → Option (Str × Str)
  | [] => none
  | c :: cs =>
    if c = ':' then some ([], cs)
    else (cutColon cs).map (fun p => (c :: p.1, p.2))

/-- `textproto.validHeaderFieldByte`: the HTTP token characters
(letters, digits, and the bytes 33 35 36 37 38 39 42 43 45 46 94 95 96 124
126). -/
def validKeyChar (c : Char) : Bool :=
  c.isAlphanum || [33, 35, 36, 37, 38, 39, 42, 43, 45, 46, 94, 95, 96, 124, 126].contains c.toNat

/-- Case folding of `textproto.canonicalMIMEHeaderKey`: uppercase the first
letter and every letter following a hyphen, lowercase the rest. -/
def canonCase : Bool → Str → Str
  | _, [] => []
  | up, c :: cs => (if up then c.toUpper else c.toLower) :: canonCase (c = '-') cs

/-- `textproto.CanonicalMIMEHeaderKey`: keys containing an invalid character
are returned unchanged, otherwise the case is canonicalised. -/
def canonicalKey (k : Str) : Str :=
  if k.all validKeyChar then canonCase true k else k

/-- The header loop of `net/mail.readHeader` (Go 1.23, which does not
validate header values): read continued lines until a blank line (success)
or end of input (success only if at least one header entry was read, per the
`err != io.EOF || len(hdr) == 0` check of `net/mail.ReadMessage`); a line
without a colon is an error; an empty canonical key skips the line. -/
def readHeaderLoop : Nat → Hdr → Str → Option (Hdr × Str)
  | 0, _, _ => none
  | fuel + 1, m, s =>
    if s.isEmpty then if m.isEmpty then none else some (m, [])
    else
      let r := readContinuedLine (fuel + 1) s
      if r.1.isEmpty then some (m, r.2)
      else
        match cutColon r.1 with
        | none => none
        | some (k, v) =>
          let key := canonicalKey k
          if key.isEmpty then readHeaderLoop fuel m r.2
          else readHeaderLoop fuel (headerAdd m key (v.dropWhile isSpaceTabChar)) r.2

/-- `net/mail.ReadMessage`: reject a first line starting with space or tab,
then parse the header block; on success the remaining input is the message
body.  `none` models a returned error (which sends `parseEmail` to the
fallback). -/
def readMessage (raw : Str) : Option (Hdr × Str) :=
  match raw with
  | [] => none
  | c :: _ =>
    if isSpaceTabChar c then none
    else readHeaderLoop (raw.length + 1) [] raw

/-- `mail.Header.Get` = `textproto.MIMEHeader.Get`: canonicalise the key and
return the first stored value, or the empty string. -/
def headerGet (m : Hdr) (k : Str) : Str :=
  let ck := canonicalKey k
  match m.find? (fun e => e.1 = ck) with
  | some (_, v :: _) => v
  | _ => []

/-- `mime.isTSpecial`: the bytes of `"()<>@,;:\\\"/[]?="` (codes
40 41 60 62 64 44 59 58 92 34 47 91 93 63 61). -/
def isTSpecialChar (c : Char) : Bool :=
  [40, 41, 60, 62, 64, 44, 59, 58, 92, 34, 47, 91, 93, 63, 61].contains c.toNat

/-- `mime.isTokenChar`. -/
def isTokenChar (c : Char) : Bool :=
  c.toNat > 32 && c.toNat < 127 && !isTSpecialChar c

/-- `strings.ToLower` character-wise, including the only two code points
whose Unicode lowercase form is ASCII (U+0130 and U+212A). -/
def goToLowerChar (c : Char) : Char :=
  if c.toNat = 304 then 'i'
  else if c.toNat = 8490 then 'k'
  else c.toLower

/-- `mime.checkMediaTypeDisposition`: a token, optionally followed by a
slash and a second token, with nothing left over. -/
def checkMediaTypeOk (s : Str) : Bool :=
  let typ := s.takeWhile isTokenChar
  let rest := s.dropWhile isTokenChar
  if typ.isEmpty then false
  else
    match rest with
    | [] => true
    | '/' :: r2 =>
      let sub := r2.takeWhile isTokenChar
      let rest2 := r2.dropWhile isTokenChar
      !sub.isEmpty && rest2.isEmpty
    | _ => false

/-- The part of the string before the first semicolon (`strings.Cut v ";"`). -/
def beforeSemi : Str → Str
  | [] => []
  | c :: cs => if c = ';' then [] else c :: beforeSemi cs

/-- The media-type component computed by `mime.ParseMediaType`:
`strings.TrimSpace (strings.ToLower base)` where `base` is the part before
the first semicolon, checked by `checkMediaTypeDisposition`; `none` models
the base-type error (on which `ParseMediaType` returns an empty media type). -/
def mediaTypeBase (v : Str) : Option Str :=
  let mt := goTrimSpace ((beforeSemi v).map goToLowerChar)
  if checkMediaTypeOk mt then some mt else none

def subjectKey : Str := "Subject".toList

def contentTypeKey : Str := "Content-Type".toList

def plainTypeS : Str := "text/plain".toList

def htmlTypeS : Str := "text/html".toList

def multipartHead : Str := "multipart/".toList

/-- A part yielded by the multipart reader: the value of its `Content-Type`
header and the content read from it (`buf.ReadFrom(part)`). -/
structure GoPart where
  contentType : Str
  content : Str
deriving DecidableEq

/-- `mime.ParseMediaType` applied to a part Content-Type at mailsink.go 225:
errors are discarded there, and a parameter error still returns the parsed
base type, so only the base computation matters. -/
def partMediaType (p : GoPart) : Str := (mediaTypeBase p.contentType).getD []

/-- The part loop of `parseEmail` (mailsink.go 215-236): record a trimmed
`text/plain` part while the plain accumulator is still empty, a trimmed
`text/html` part while the html accumulator is still empty, skip everything
else. -/
def partsLoop : List GoPart → Str → Str → Str × Str
  | [], body, htmlAcc => (body, htmlAcc)
  | p :: ps, body, htmlAcc =>
    if partMediaType p = plainTypeS ∧ body = [] then
      partsLoop ps (goTrimSpace p.content) htmlAcc
    else if partMediaType p = htmlTypeS ∧ htmlAcc = [] then
      partsLoop ps body (goTrimSpace p.content)
    else partsLoop ps body htmlAcc

def subjMark : Str := "Subject: ".toList

def ctHtmlMark : Str := "Content-Type: text/html".toList

/-- The line scan of `parseEmailSimple` (mailsink.go 257-273), with the
final `strings.TrimSpace` of all three accumulators (line 275). -/
def simpleLoop : List Str → Str → Str → Str → Bool → Bool → Str × Str × Str
  | [], subj, body, htmlAcc, _, _ =>
    (goTrimSpace subj, goTrimSpace body, goTrimSpace htmlAcc)
  | l :: ls, subj, body, htmlAcc, inBody, isHTML =>
    if inBody = false then
      if subjMark.isPrefixOf l then
        simpleLoop ls (l.drop subjMark.length) body htmlAcc inBody isHTML
      else if containsSub ctHtmlMark l then
        simpleLoop ls subj body htmlAcc inBody true
      else if l.isEmpty then
        simpleLoop ls subj body htmlAcc true isHTML
      else simpleLoop ls subj body htmlAcc inBody isHTML
    else
      if isHTML then simpleLoop ls subj body (htmlAcc ++ l ++ ['\n']) inBody isHTML
      else simpleLoop ls subj (body ++ l ++ ['\n']) htmlAcc inBody isHTML

/-- `parseEmailSimple` (mailsink.go 252-276). -/
def parseEmailSimple (raw : Str) : Str × Str × Str :=
  simpleLoop (splitNl raw) [] [] [] false false

/-- `parseEmail` (mailsink.go 197-250); `bnd` and `mp` abstract the
standard-library multipart machinery as described above.  When
`mime.ParseMediaType` fails on the top-level Content-Type — base-type error
(`mediaTypeBase` is `none`) or parameter error (`bnd` is `none`) — the media
type falls back to `text/plain` (line 210). -/
def parseEmail (bnd : Str → Option Str) (mp : Str → Str → List GoPart)
    (raw : Str) : Str × Str × Str :=
  match readMessage raw with
  | none => parseEmailSimple raw
  | some (hdr, bodyRest) =>
    let subject := headerGet hdr subjectKey
    let ct := headerGet hdr contentTypeKey
    let mediaType :=
      match mediaTypeBase ct, bnd ct with
      | some mt, some _ => mt
      | _, _ => plainTypeS
    if multipartHead.isPrefixOf mediaType then
      let parts := mp ((bnd ct).getD []) bodyRest
      let r := partsLoop parts [] []
      (subject, r.1, r.2)
    else if mediaType = htmlTypeS then (subject, [], goTrimSpace bodyRest)
    else (subject, goTrimSpace bodyRest, [])

/-- Concatenation of lines, each followed by a newline: the shape produced
by the accumulator appends `acc += line + "\n"` of `parseEmailSimple`. -/
def concatNl : List Str → Str
  | [] => []
  | l :: ls => l ++ '\n' :: concatNl ls

/-- Lines joined by single newlines (the "newline-joined" accumulator of the
specification text for the fallback scan). -/
def specJoinNl : List Str → Str
  | [] => []
  | [l] => l
  | l :: ls => l ++ '\n' :: specJoinNl ls

/-- Subject selection over the header block, as the specification words it:
a line beginning with `Subject: ` sets the subject (prefix stripped), so the
last such line wins. -/
def subjFold (s : Str) (ls : List Str) : Str :=
  ls.foldl (fun s l => if subjMark.isPrefixOf l then l.drop subjMark.length else s) s

/-- Flag accumulation over the header block with the priority of the code
(`else if`): a line beginning with `Subject: ` never sets the flag. -/
def flagFold (f : Bool) (ls : List Str) : Bool :=
  ls.foldl
    (fun f l =>
      if subjMark.isPrefixOf l then f
      else if containsSub ctHtmlMark l then true
      else f) f

/-- The fallback scan as described by the amended specification sentence:
the header block is everything before the first empty line; in it, a line
beginning with `Subject: ` sets the subject (prefix stripped, last wins);
otherwise a line containing `Content-Type: text/html` sets the is-html flag;
from the first empty line onward the lines are newline-joined into the html
accumulator if the flag was set, else into the plain accumulator; all three
results are trimmed of leading/trailing whitespace. -/
def simpleScanSpec (raw : Str) : Str × Str × Str :=
  let lines := splitNl raw
  let hd := lines.takeWhile (fun l => !l.isEmpty)
  let bd := (lines.dropWhile (fun l => !l.isEmpty)).drop 1
  let subj := subjFold [] hd
  let flag := hd.any (fun l => !subjMark.isPrefixOf l && containsSub ctHtmlMark l)
  (goTrimSpace subj,
   goTrimSpace (if flag then [] else specJoinNl bd),
   goTrimSpace (if flag then specJoinNl bd else []))

/-- The fallback scan exactly as the claim words it, with the two header
conditions applied independently rather than as an `else if` chain: a line
beginning with `Subject: ` sets the subject, and (independently) any line
containing `Content-Type: text/html` sets the is-html flag. -/
def claimedLoop : List Str → Str → Str → Str → Bool → Bool → Str × Str × Str
  | [], subj, body, htmlAcc, _, _ =>
    (goTrimSpace subj, goTrimSpace body, goTrimSpace htmlAcc)
  | l :: ls, subj, body, htmlAcc, inBody, isHTML =>
    if inBody = false then
      claimedLoop ls
        (if subjMark.isPrefixOf l then l.drop subjMark.length else subj)
        body htmlAcc
        (if l.isEmpty then true else inBody)
        (if containsSub ctHtmlMark l then true else isHTML)
    else
      if isHTML then claimedLoop ls subj body (htmlAcc ++ l ++ ['\n']) inBody isHTML
      else claimedLoop ls subj (body ++ l ++ ['\n']) htmlAcc inBody isHTML

/-- The line-oriented scan under the claim reading (independent header
conditions). -/
def simpleScanClaimed (raw : Str) : Str × Str × Str :=
  claimedLoop (splitNl raw) [] [] [] false false

/-- The first part of the list whose media type is `t`. -/
def firstPartOfType (t : Str) (ps : List GoPart) : Option GoPart :=
  ps.find? (fun p => decide (partMediaType p = t))

/-- The plain body as the claim words it: the trimmed content of the first
`text/plain` part, every other part having no effect. -/
def claimedFirstBody (ps : List GoPart) : Str :=
  match firstPartOfType plainTypeS ps with
  | some p => goTrimSpace p.content
  | none => []

/-- The html body as the claim words it. -/
def claimedFirstHtml (ps : List GoPart) : Str :=
  match firstPartOfType htmlTypeS ps with
  | some p => goTrimSpace p.content
  | none => []

/-- The plain body the part loop actually records: the trimmed content of
the first `text/plain` part whose trimmed content is non-empty. -/
def recordedBody (ps : List GoPart) : Str :=
  match ps.find? (fun p =>
      decide (partMediaType p = plainTypeS) && !(goTrimSpace p.content).isEmpty) with
  | some p => goTrimSpace p.content
  | none => []

/-- The html body the part loop actually records. -/
def recordedHtml (ps : List GoPart) : Str :=
  match ps.find? (fun p =>
      decide (partMediaType p = htmlTypeS) && !(goTrimSpace p.content).isEmpty) with
  | some p => goTrimSpace p.content
  | none => []

end Parse

/-! ## The repository read paths (mailsink.go 310-325)

The two SQL queries of `emailsHandler` are `SELECT ... ORDER BY timestamp
DESC LIMIT 100`, on the search path joined against the rows matching the
full-text query.  SQL specifies the result order only up to the `ORDER BY`
key list, so the queries are modelled relationally: an output sequence is
admissible iff it is the 100-prefix of some permutation of the (filtered)
table that is sorted by timestamp descending.  Row fields other than the
identity and the received timestamp play no role in ordering and are
omitted. -/

namespace Query

structure QRow where
  id : Nat
  ts : Nat
deriving DecidableEq

/-- Sorted by received timestamp, newest first (the comparison requested by
`ORDER BY timestamp DESC`). -/
def tsSorted (out : List QRow) : Prop :=
  out.Pairwise (fun a b => b.ts ≤ a.ts)

/-- Sorted by timestamp descending with ties broken by identity descending
(the ordering the claim asserts). -/
def tsIdSorted (out : List QRow) : Prop :=
  out.Pairwise (fun a b => b.ts < a.ts ∨ (b.ts = a.ts ∧ b.id < a.id))

/-- Admissible results of the list-recent query (mailsink.go 319-324). -/
def listRecentAdmissible (table out : List QRow) : Prop :=
  ∃ s, s.Perm table ∧ tsSorted s ∧ out = s.take 100

/-- Admissible results of the search query (mailsink.go 310-317), where `p`
is the row predicate induced by the full-text match. -/
def searchAdmissible (p : QRow → Bool) (table out : List QRow) : Prop :=
  ∃ s, s.Perm (table.filter p) ∧ tsSorted s ∧ out = s.take 100

end Query

/-! ## The search query compiler `fts5_term`

`fts5_term` is called at mailsink.go 304 but its source file is not part of
the repository snapshot; it is modelled from the specification (§4.2):
tokenize the input respecting double-quote boundaries, with `-` marking an
exclusion; an unterminated quote is a validation error, as is an input with
no queryable terms; every literal token is emitted wrapped in double quotes
with embedded quotes doubled, required terms joined by `AND` and exclusions
by `NOT`. -/

namespace Fts

inductive QueryErr where
  | unterminatedQuote
  | emptyQuery
deriving DecidableEq

structure QTok where
  exclude : Bool
  text : Str
deriving DecidableEq

/-- Tokenizer state: completed tokens, the bare token in progress (with its
exclusion flag), and the quoted phrase in progress. -/
structure ScanState where
  toks : List QTok
  cur : Option (Bool × Str)
  phr : Option (Bool × Str)
deriving DecidableEq

/-- Finish the bare token in progress; a bare `-` with no text yields no
token. -/
def flushCur (st : ScanState) : ScanState :=
  match st.cur with
  | none => st
  | some (n, acc) =>
    { st with
        cur := none,
        toks := if acc.isEmpty then st.toks else st.toks ++ [⟨n, acc⟩] }

/-- One character of the tokenizer: inside a phrase a quote closes it and
anything else is phrase text; outside, a quote opens a phrase (negated if it
directly follows a bare `-`), whitespace finishes the current token, a `-`
at a token start begins an exclusion, and any other character extends the
current token. -/
def scanStep (st : ScanState) (c : Char) : ScanState :=
  match st.phr with
  | some (n, acc) =>
    if c = '"' then { st with phr := none, toks := st.toks ++ [⟨n, acc⟩] }
    else { st with phr := some (n, acc ++ [c]) }
  | none =>
    if c = '"' then
      match st.cur with
      | some (n, []) => { st with cur := none, phr := some (n, []) }
      | _ =>
        let st2 := flushCur st
        { st2 with phr := some (false, []) }
    else if goIsSpace c then flushCur st
    else if c = '-' ∧ st.cur = none then { st with cur := some (true, []) }
    else
      match st.cur with
      | none => { st with cur := some (false, [c]) }
      | some (n, acc) => { st with cur := some (n, acc ++ [c]) }

def scanQuery (s : Str) : ScanState := s.foldl scanStep ⟨[], none, none⟩

/-- Number of double-quote characters in a string. -/
def countQuote : Str → Nat
  | [] => 0
  | c :: cs => (if c = '"' then 1 else 0) + countQuote cs

/-- Escape a literal for the FTS5 dialect: wrap in double quotes, doubling
embedded quotes. -/
def escapeTok (t : Str) : Str :=
  '"' :: ((t.map (fun c => if c = '"' then [c, c] else [c])).flatten ++ ['"'])

def renderTok (t : QTok) : Str :=
  if t.exclude then "NOT ".toList ++ escapeTok t.text else escapeTok t.text

def joinToks : List QTok → Str
  | [] => []
  | [t] => renderTok t
  | t :: ts => renderTok t ++ " AND ".toList ++ joinToks ts

/-- Modelled from the spec: the query compiler `fts5_term` (called at
mailsink.go 304; its defining source file is missing from the repository
snapshot).  An input left inside an open phrase is an unterminated-quote
validation error; an input with no queryable terms is an empty-query
validation error; otherwise the escaped tokens are joined. -/
def fts5_term (s : Str) : Except QueryErr Str :=
  let st := scanQuery s
  if st.phr.isSome then .error .unterminatedQuote
  else
    let st2 := flushCur st
    if st2.toks.isEmpty then .error .emptyQuery
    else .ok (joinToks st2.toks)

end Fts

/-! ## The HTTP handlers (mailsink.go 297-391)

The database is abstracted as the outcomes of the three queries the
handlers run; the per-row enrichment of lines 341-352 and 376-387
(sanitized HTML, ANSI rendering) is abstracted as a row function since none
of the claims concern its content.  Note the shadowing at mailsink.go 304:
`ftsQuery, err := fts5_term(query)` declares a new `err` inside the `if`
block, so the `err != nil` check at line 327 reads the still-nil outer
`err`; when `db.Query` fails on the search path the handler proceeds with a
nil `rows` and panics at `rows.Close()` / `rows.Next()` instead of
returning a 500. -/

namespace Api

structure EmailRec where
  id : Nat
  body : Str
  htmlBody : Str
deriving DecidableEq

structure Store where
  searchRows : Str → Except Unit (List EmailRec)
  listRows : Except Unit (List EmailRec)
  procRow : EmailRec → EmailRec

inductive JVal where
  | jnull
  | jarr (rows : List EmailRec)
  | jobj (r : EmailRec)
deriving DecidableEq

inductive Resp where
  | jsonOk (j : JVal)
  | badRequest
  | serverError
  | notFound
deriving DecidableEq

inductive Outcome where
  | resp (r : Resp)
  | panicked
deriving DecidableEq

/-- `json.NewEncoder(w).Encode(emails)` where `emails` is declared as a nil
slice (`var emails []Email`) and only ever appended to: with zero rows it is
still nil and Go marshals a nil slice to JSON `null`, otherwise to an
array. -/
def goEncodeEmailSlice (rows : List EmailRec) : JVal :=
  match rows with
  | [] => .jnull
  | _ => .jarr rows

/-- `emailsHandler` (mailsink.go 297-359). -/
def emailsHandler (st : Store) (q : Str) : Outcome :=
  if !q.isEmpty then
    match Fts.fts5_term q with
    | .error _ => .resp .badRequest
    | .ok fq =>
      match st.searchRows fq with
      | .error _ => .panicked
      | .ok rows => .resp (.jsonOk (goEncodeEmailSlice (rows.map st.procRow)))
  else
    match st.listRows with
    | .error _ => .resp .serverError
    | .ok rows => .resp (.jsonOk (goEncodeEmailSlice (rows.map st.procRow)))

/-- `emailHandler` (mailsink.go 361-391): `QueryRow(...).Scan` returns
`sql.ErrNoRows` for an absent id (`.ok none`) and the store error otherwise
(`.error`); any non-nil error is answered with 404 "Email not found". -/
def emailHandler (proc : EmailRec → EmailRec)
    (getRow : Except Unit (Option EmailRec)) : Resp :=
  match getRow with
  | .error _ => .notFound
  | .ok none => .notFound
  | .ok (some e) => .jsonOk (.jobj (proc e))

end Api

/-! ## The ingestion handler (mailsink.go 165-195)

`mailHandler` decomposes the message, inserts one row, and returns the
insert error if any; forwarding (when a forward address is configured) runs
only after a successful insert, and a forwarding failure is only logged —
the handler still returns nil and performs no further store operation. -/

namespace Ingest

/-- `mailHandler` over an abstract store: `dbInsert` maps the current rows
to the new rows or fails; `forwardRes` is the outcome of `forwardEmail`.
The result is the returned error, the final rows, and whether forwarding
was attempted. -/
def mailHandler {α : Type} (dbInsert : List α → Except Unit (List α))
    (forwardRes : Except Unit Unit) (forwardAddr : Str) (st : List α) :
    Option Unit × List α × Bool :=
  match dbInsert st with
  | .error e => (some e, st, false)
  | .ok st2 =>
    if forwardAddr.isEmpty then (none, st2, false)
    else
      match forwardRes with
      | .error _ => (none, st2, true)
      | .ok _ => (none, st2, true)

end Ingest

/-! ## The persistence schema and its triggers (mailsink.go 74-117)

The schema creates the `emails` table, the FTS5 index `emails_fts` over
subject, body, from_addr and to_addr (the html column is not indexed), and
three triggers `emails_ai` / `emails_ad` / `emails_au` intended to mirror
every insert, delete and update of `emails` into `emails_fts` inside the
same statement.  `emails_fts` is an *external-content* table
(`content=emails, content_rowid=id`): the index stores no column values of
its own.  An INSERT that supplies explicit values (as `emails_ai` and the
second statement of `emails_au` do) adds an index entry built from those
values; but a plain `DELETE FROM emails_fts WHERE rowid = i` must re-read
the column values of row `i` from the content table at execution time to
know which entry to remove.  The triggers run AFTER the mutation, so at
that moment the content row is already deleted (`emails_ad`) or already
holds the new values (`emails_au`), and the old entry is not removed — the
documented FTS5 sync idiom instead uses the special
`INSERT INTO fts(fts, rowid, ...) VALUES('delete', old.id, old...)` command
carrying the old values.  The state machine below embeds the three SQL
mutations with these external-content semantics; the application itself
only ever runs the plain `INSERT INTO emails` of `mailHandler`. -/

namespace DbM

structure MsgVals where
  fromAddr : Str
  toAddr : Str
  subject : Str
  body : Str
  html : Str
  raw : Str
deriving DecidableEq

structure MsgRow where
  id : Nat
  vals : MsgVals
deriving DecidableEq

/-- A row of `emails_fts`: rowid plus the four indexed columns; the html
column is deliberately absent from the index. -/
structure FtsRow where
  rowid : Nat
  subject : Str
  body : Str
  fromAddr : Str
  toAddr : Str
deriving DecidableEq

/-- The index entry the triggers write for a message row
(`VALUES (new.id, new.subject, new.body, new.from_addr, new.to_addr)`). -/
def mirrorOf (i : Nat) (v : MsgVals) : FtsRow :=
  ⟨i, v.subject, v.body, v.fromAddr, v.toAddr⟩

structure Db where
  nextId : Nat
  emails : List MsgRow
  fts : List FtsRow
deriving DecidableEq

/-- The freshly created database: AUTOINCREMENT ids start at 1. -/
def emptyDb : Db := ⟨1, [], []⟩

/-- `INSERT INTO emails ...` followed by trigger `emails_ai`. -/
def sqlInsert (d : Db) (v : MsgVals) : Db :=
  { nextId := d.nextId + 1,
    emails := d.emails ++ [⟨d.nextId, v⟩],
    fts := d.fts ++ [mirrorOf d.nextId v] }

/-- The content-table lookup FTS5 performs for writes to the
external-content index that do not carry explicit values: fetch the row
with the given rowid from `emails` (`content=emails, content_rowid=id`). -/
def contentLookup (emails : List MsgRow) (i : Nat) : Option MsgVals :=
  (emails.find? (fun r => decide (r.id = i))).map (fun r => r.vals)

/-- `DELETE FROM emails_fts WHERE rowid = i` on the external-content FTS5
table: FTS5 re-reads the column values of row `i` from the content table at
execution time and removes the index entry built from those values.  If the
content row is absent no values are obtained and nothing is removed; if the
values read differ from the stored entry, the stored entry likewise
survives, because the removal targets postings that are not present (real
FTS5 additionally corrupts the index in that case; the model keeps just the
surviving stale entry). -/
def ftsDelete (emails : List MsgRow) (fts : List FtsRow) (i : Nat) : List FtsRow :=
  match contentLookup emails i with
  | none => fts
  | some v => fts.erase (mirrorOf i v)

/-- `DELETE FROM emails WHERE id = i` followed by trigger `emails_ad`
(AFTER DELETE): when the trigger body runs, the content row is already
gone, so its `DELETE FROM emails_fts` removes nothing and the index entry
of the deleted row survives. -/
def sqlDelete (d : Db) (i : Nat) : Db :=
  let emails2 := d.emails.filter (fun r => !decide (r.id = i))
  { d with
    emails := emails2,
    fts := ftsDelete emails2 d.fts i }

/-- `UPDATE emails SET ... WHERE id = i` followed by trigger `emails_au`
(AFTER UPDATE; the trigger fires when a row was updated): its
`DELETE FROM emails_fts` re-reads the content row, which already holds the
new values, so it attempts to remove the new-value entry (not present)
while the old-value entry lingers; the trigger's INSERT then adds the entry
for the new values with explicit `new.*` values.  Ids are unique in every
reachable state, so at most one row matches. -/
def sqlUpdate (d : Db) (i : Nat) (v : MsgVals) : Db :=
  let emails2 := d.emails.map (fun r => if r.id = i then ⟨r.id, v⟩ else r)
  { d with
    emails := emails2,
    fts :=
      if (d.emails.filter (fun r => decide (r.id = i))).isEmpty then d.fts
      else ftsDelete emails2 d.fts i ++ [mirrorOf i v] }

inductive DbOp where
  | ins (v : MsgVals)
  | del (i : Nat)
  | upd (i : Nat) (v : MsgVals)

def applyOp (d : Db) : DbOp → Db
  | .ins v => sqlInsert d v
  | .del i => sqlDelete d i
  | .upd i v => sqlUpdate d i v

def applyOps (ops : List DbOp) : Db := ops.foldl applyOp emptyDb

/-- The index-mirror invariant: every message row has its exact mirror in
the index, and every index entry is the exact mirror of some message row. -/
def consistent (d : Db) : Prop :=
  (∀ r ∈ d.emails, mirrorOf r.id r.vals ∈ d.fts) ∧
  (∀ f ∈ d.fts, ∃ r ∈ d.emails, f = mirrorOf r.id r.vals)

/-- Concrete field values used to exercise the trigger state machine. -/
def exVals : MsgVals :=
  ⟨("a@x").toList, ("b@x").toList, ("s1").toList, ("body").toList,
    ("h").toList, ("raw").toList⟩

/-- The same field values with a different subject. -/
def exVals2 : MsgVals :=
  ⟨("a@x").toList, ("b@x").toList, ("s2").toList, ("body").toList,
    ("h").toList, ("raw").toList⟩

end DbM

/-! ## Helper lemmas: trimming -/

theorem dropWhile_self_dropWhile (p : Char → Bool) (l : Str) :
    (l.dropWhile p).dropWhile p = l.dropWhile p := by
  induction l with
  | nil => rfl
  | cons c cs ih =>
    by_cases h : p c
    · simp [List.dropWhile_cons, h, ih]
    · simp [List.dropWhile_cons, h]

theorem rtrim_head_not (p : Char → Bool) (l : Str) (c : Char)
    (h : (rtrimWith p l).reverse.head? = some c) : p c = false := by
  have := List.head?_dropWhile_not p l.reverse
  unfold rtrimWith at h
  rw [List.reverse_reverse] at h
  rw [h] at this
  exact this

theorem rtrim_of_last_not (p : Char → Bool) (l : Str)
    (h : ∀ c, l.reverse.head? = some c → p c = false) : rtrimWith p l = l := by
  unfold rtrimWith
  cases hrev : l.reverse with
  | nil =>
    have : l = [] := by
      have := congrArg List.reverse hrev
      simpa using this
    simp [this]
  | cons c cs =>
    have hc : p c = false := h c (by rw [hrev]; rfl)
    rw [List.dropWhile_cons, hc]
    simp
    have := congrArg List.reverse hrev
    simpa using this.symm

theorem trimWith_idem (p : Char → Bool) (l : Str) :
    trimWith p (trimWith p l) = trimWith p l := by
  set t := trimWith p l with ht
  have hsuffix : t <:+ rtrimWith p l := by
    rw [ht]; unfold trimWith; exact List.dropWhile_suffix p
  have hrt : rtrimWith p t = t := by
    apply rtrim_of_last_not
    intro c hc
    obtain ⟨u, hu⟩ := hsuffix
    have hrev : t.reverse.head? = (rtrimWith p l).reverse.head? := by
      have h2 : (rtrimWith p l).reverse = t.reverse ++ u.reverse := by
        rw [← hu]; simp
      rw [h2, List.head?_append, hc]
      rfl
    exact rtrim_head_not p l c (by rw [← hrev, hc])
  show trimWith p t = t
  unfold trimWith
  rw [hrt, ht]
  show ((rtrimWith p l).dropWhile p).dropWhile p = _
  rw [dropWhile_self_dropWhile]
  rfl

theorem goTrimSpace_idem (l : Str) : goTrimSpace (goTrimSpace l) = goTrimSpace l :=
  trimWith_idem goIsSpace l

theorem rtrimWith_append_single (p : Char → Bool) (l : Str) (c : Char)
    (hc : p c = true) : rtrimWith p (l ++ [c]) = rtrimWith p l := by
  unfold rtrimWith
  rw [List.reverse_append]
  simp [List.dropWhile_cons, hc]

theorem rtrimWith_append_congr (p : Char → Bool) (x a b : Str)
    (h : rtrimWith p a = rtrimWith p b) :
    rtrimWith p (x ++ a) = rtrimWith p (x ++ b) := by
  have hab : a.reverse.dropWhile p = b.reverse.dropWhile p := by
    have := congrArg List.reverse h
    unfold rtrimWith at this
    simpa using this
  unfold rtrimWith
  rw [List.reverse_append, List.reverse_append, List.dropWhile_append,
    List.dropWhile_append, hab]

theorem trimWith_congr_of_rtrim (p : Char → Bool) (a b : Str)
    (h : rtrimWith p a = rtrimWith p b) : trimWith p a = trimWith p b := by
  unfold trimWith
  rw [h]

/-! ## Helper lemmas: the decomposer -/

namespace Parse

theorem partsLoop_trimmed : ∀ (ps : List GoPart) (b h : Str),
    b = goTrimSpace b → h = goTrimSpace h →
    (partsLoop ps b h).1 = goTrimSpace (partsLoop ps b h).1 ∧
    (partsLoop ps b h).2 = goTrimSpace (partsLoop ps b h).2 := by
  intro ps
  induction ps with
  | nil => intro b h hb hh; exact ⟨hb, hh⟩
  | cons p ps ih =>
    intro b h hb hh
    by_cases h1 : partMediaType p = plainTypeS ∧ b = []
    · simp only [partsLoop, if_pos h1]
      exact ih _ _ (goTrimSpace_idem p.content).symm hh
    · by_cases h2 : partMediaType p = htmlTypeS ∧ h = []
      · simp only [partsLoop, if_neg h1, if_pos h2]
        exact ih _ _ hb (goTrimSpace_idem p.content).symm
      · simp only [partsLoop, if_neg h1, if_neg h2]
        exact ih _ _ hb hh

theorem simpleLoop_trimmed : ∀ (ls : List Str) (subj body htmlAcc : Str)
    (inB isH : Bool),
    (simpleLoop ls subj body htmlAcc inB isH).1 =
      goTrimSpace (simpleLoop ls subj body htmlAcc inB isH).1 ∧
    (simpleLoop ls subj body htmlAcc inB isH).2.1 =
      goTrimSpace (simpleLoop ls subj body htmlAcc inB isH).2.1 ∧
    (simpleLoop ls subj body htmlAcc inB isH).2.2 =
      goTrimSpace (simpleLoop ls subj body htmlAcc inB isH).2.2 := by
  intro ls
  induction ls with
  | nil =>
    intro subj body htmlAcc inB isH
    exact ⟨(goTrimSpace_idem subj).symm, (goTrimSpace_idem body).symm,
      (goTrimSpace_idem htmlAcc).symm⟩
  | cons l ls ih =>
    intro subj body htmlAcc inB isH
    simp only [simpleLoop]
    split
    · split
      · exact ih _ _ _ _ _
      · split
        · exact ih _ _ _ _ _
        · split
          · exact ih _ _ _ _ _
          · exact ih _ _ _ _ _
    · split
      · exact ih _ _ _ _ _
      · exact ih _ _ _ _ _

theorem simpleLoop_body_phase : ∀ (ls : List Str) (subj body htmlAcc : Str)
    (isH : Bool),
    simpleLoop ls subj body htmlAcc true isH =
      (goTrimSpace subj,
       goTrimSpace (if isH then body else body ++ concatNl ls),
       goTrimSpace (if isH then htmlAcc ++ concatNl ls else htmlAcc)) := by
  intro ls
  induction ls with
  | nil =>
    intro subj body htmlAcc isH
    simp [simpleLoop, concatNl]
  | cons l ls ih =>
    intro subj body htmlAcc isH
    cases isH with
    | true =>
      simp only [simpleLoop, if_neg (by simp : ¬((true : Bool) = false)), if_pos rfl, ih]
      simp [concatNl, List.append_assoc]
    | false =>
      simp only [simpleLoop, if_neg (by simp : ¬((true : Bool) = false)),
        if_neg (by simp : ¬((false : Bool) = true)), ih]
      simp [concatNl, List.append_assoc]

theorem isPrefixOf_subjMark_not_nil (l : Str) (h : subjMark.isPrefixOf l = true) :
    l.isEmpty = false := by
  cases l with
  | nil => exact absurd h (by decide)
  | cons c cs => rfl

theorem containsSub_ctHtml_not_nil (l : Str) (h : containsSub ctHtmlMark l = true) :
    l.isEmpty = false := by
  cases l with
  | nil => exact absurd h (by decide)
  | cons c cs => rfl

theorem simpleLoop_header_phase : ∀ (ls : List Str) (subj body htmlAcc : Str)
    (isH : Bool),
    simpleLoop ls subj body htmlAcc false isH =
      (goTrimSpace (subjFold subj (ls.takeWhile (fun l => !l.isEmpty))),
       goTrimSpace (if flagFold isH (ls.takeWhile (fun l => !l.isEmpty)) then body
         else body ++ concatNl ((ls.dropWhile (fun l => !l.isEmpty)).drop 1)),
       goTrimSpace (if flagFold isH (ls.takeWhile (fun l => !l.isEmpty)) then
         htmlAcc ++ concatNl ((ls.dropWhile (fun l => !l.isEmpty)).drop 1)
         else htmlAcc)) := by
  intro ls
  induction ls with
  | nil =>
    intro subj body htmlAcc isH
    simp [simpleLoop, subjFold, flagFold, concatNl]
  | cons l ls ih =>
    intro subj body htmlAcc isH
    cases h1 : subjMark.isPrefixOf l with
    | true =>
      have hp : subjMark <+: l := List.isPrefixOf_iff_prefix.1 h1
      have hne := isPrefixOf_subjMark_not_nil l h1
      simp only [simpleLoop, h1, if_pos rfl, if_true]
      rw [ih]
      simp [hne, subjFold, flagFold, h1, hp]
    | false =>
      have hp : ¬ subjMark <+: l := fun hc => by
        simp [ List.isPrefixOf_iff_prefix.2 hc] at h1
      cases h2 : containsSub ctHtmlMark l with
      | true =>
        have hne := containsSub_ctHtml_not_nil l h2
        simp only [simpleLoop, h1, h2, if_pos rfl, Bool.false_eq_true, if_false, if_true]
        rw [ih]
        simp [hne, subjFold, flagFold, h1, h2, hp]
      | false =>
        cases h3 : l.isEmpty with
        | true =>
          have hl : l = [] := by
            cases l with
            | nil => rfl
            | cons c cs => exact absurd h3 (by simp)
          subst hl
          simp only [simpleLoop, h1, h2, h3, if_pos rfl, Bool.false_eq_true, if_false,
            List.isEmpty_nil, if_true]
          rw [simpleLoop_body_phase]
          simp [subjFold, flagFold]
        | false =>
          simp only [simpleLoop, h1, h2, h3, if_pos rfl, Bool.false_eq_true, if_false]
          rw [ih]
          simp [h3, subjFold, flagFold, h1, h2, hp]

theorem flagFold_eq_any (f : Bool) (ls : List Str) :
    flagFold f ls =
      (f || ls.any (fun l => !subjMark.isPrefixOf l && containsSub ctHtmlMark l)) := by
  induction ls generalizing f with
  | nil => simp [flagFold]
  | cons l ls ih =>
    have hstep : flagFold f (l :: ls) =
        flagFold (if subjMark.isPrefixOf l then f
          else if containsSub ctHtmlMark l then true else f) ls := rfl
    rw [hstep, ih, List.any_cons]
    cases h1 : subjMark.isPrefixOf l with
    | true => simp [h1]
    | false =>
      cases h2 : containsSub ctHtmlMark l with
      | true => simp [h1, h2]
      | false => simp [h1, h2]

theorem rtrim_concatNl_eq_join (ls : List Str) :
    rtrimWith goIsSpace (concatNl ls) = rtrimWith goIsSpace (specJoinNl ls) := by
  induction ls with
  | nil => rfl
  | cons l ls ih =>
    cases ls with
    | nil =>
      show rtrimWith goIsSpace (l ++ ['\n']) = rtrimWith goIsSpace l
      exact rtrimWith_append_single goIsSpace l '\n' (by decide)
    | cons l2 ls2 =>
      have h1 : concatNl (l :: l2 :: ls2) = (l ++ ['\n']) ++ concatNl (l2 :: ls2) := by
        simp [concatNl, List.append_assoc]
      have h2 : specJoinNl (l :: l2 :: ls2) = (l ++ ['\n']) ++ specJoinNl (l2 :: ls2) := by
        simp [specJoinNl, List.append_assoc]
      rw [h1, h2]
      exact rtrimWith_append_congr goIsSpace (l ++ ['\n']) _ _ ih

theorem trim_concatNl_eq_join (ls : List Str) :
    goTrimSpace (concatNl ls) = goTrimSpace (specJoinNl ls) :=
  trimWith_congr_of_rtrim goIsSpace _ _ (rtrim_concatNl_eq_join ls)

theorem parseEmailSimple_eq_spec (raw : Str) :
    parseEmailSimple raw = simpleScanSpec raw := by
  unfold parseEmailSimple simpleScanSpec
  rw [simpleLoop_header_phase, flagFold_eq_any]
  simp only [Bool.false_or]
  cases hf : (splitNl raw).takeWhile (fun l => !l.isEmpty) |>.any
      (fun l => !subjMark.isPrefixOf l && containsSub ctHtmlMark l) with
  | true => simp [hf, trim_concatNl_eq_join]
  | false => simp [hf, trim_concatNl_eq_join]

theorem partsLoop_cons_eq (p : GoPart) (ps : List GoPart) (b h : Str) :
    partsLoop (p :: ps) b h =
      if partMediaType p = plainTypeS ∧ b = [] then
        partsLoop ps (goTrimSpace p.content) h
      else if partMediaType p = htmlTypeS ∧ h = [] then
        partsLoop ps b (goTrimSpace p.content)
      else partsLoop ps b h := rfl

theorem partsLoop_fst : ∀ (ps : List GoPart) (b h : Str),
    (partsLoop ps b h).1 = if b.isEmpty then recordedBody ps else b := by
  intro ps
  induction ps with
  | nil =>
    intro b h
    cases b with
    | nil => simp [partsLoop, recordedBody]
    | cons c cs => simp [partsLoop]
  | cons p ps ih =>
    intro b h
    by_cases hpm : partMediaType p = plainTypeS
    · cases b with
      | nil =>
        rw [partsLoop_cons_eq, if_pos ⟨hpm, rfl⟩, ih]
        cases hc : (goTrimSpace p.content).isEmpty with
        | true =>
          have he : goTrimSpace p.content = [] := by
            cases hgl : goTrimSpace p.content with
            | nil => rfl
            | cons x xs => rw [hgl] at hc; cases hc
          simp [recordedBody, List.find?_cons, hpm, hc, he]
        | false =>
          simp [recordedBody, List.find?_cons, hpm, hc]
      | cons c cs =>
        have hno : ¬(partMediaType p = plainTypeS ∧ (c :: cs : Str) = []) := by
          rintro ⟨-, hcs⟩; cases hcs
        rw [partsLoop_cons_eq]
        rw [if_neg hno]
        by_cases hh : partMediaType p = htmlTypeS ∧ (h : Str) = []
        · rw [if_pos hh, ih]
          simp
        · rw [if_neg hh, ih]
          simp
    · have hno : ¬(partMediaType p = plainTypeS ∧ b = []) := fun hc => hpm hc.1
      have hguard :
          (decide (partMediaType p = plainTypeS) &&
            !(goTrimSpace p.content).isEmpty) = false := by
        simp [hpm]
      have hrec : recordedBody (p :: ps) = recordedBody ps := by
        unfold recordedBody
        rw [List.find?_cons, hguard]
      rw [partsLoop_cons_eq, if_neg hno]
      by_cases hh : partMediaType p = htmlTypeS ∧ (h : Str) = []
      · rw [if_pos hh, ih, hrec]
      · rw [if_neg hh, ih, hrec]

theorem partsLoop_snd : ∀ (ps : List GoPart) (b h : Str),
    (partsLoop ps b h).2 = if h.isEmpty then recordedHtml ps else h := by
  intro ps
  induction ps with
  | nil =>
    intro b h
    cases h with
    | nil => simp [partsLoop, recordedHtml]
    | cons c cs => simp [partsLoop]
  | cons p ps ih =>
    intro b h
    by_cases hpm : partMediaType p = htmlTypeS
    · have hnp : ¬ partMediaType p = plainTypeS := by
        rw [hpm]; decide
      have hno : ¬(partMediaType p = plainTypeS ∧ b = []) := fun hc => hnp hc.1
      cases h with
      | nil =>
        rw [partsLoop_cons_eq, if_neg hno, if_pos ⟨hpm, rfl⟩, ih]
        cases hc : (goTrimSpace p.content).isEmpty with
        | true =>
          have he : goTrimSpace p.content = [] := by
            cases hgl : goTrimSpace p.content with
            | nil => rfl
            | cons x xs => rw [hgl] at hc; cases hc
          simp [recordedHtml, List.find?_cons, hpm, hc, he]
        | false =>
          simp [recordedHtml, List.find?_cons, hpm, hc]
      | cons c cs =>
        have hnh : ¬(partMediaType p = htmlTypeS ∧ (c :: cs : Str) = []) := by
          rintro ⟨-, hcs⟩; cases hcs
        rw [partsLoop_cons_eq, if_neg hno, if_neg hnh, ih]
        simp
    · have hguard :
          (decide (partMediaType p = htmlTypeS) &&
            !(goTrimSpace p.content).isEmpty) = false := by
        simp [hpm]
      have hrec : recordedHtml (p :: ps) = recordedHtml ps := by
        unfold recordedHtml
        rw [List.find?_cons, hguard]
      rw [partsLoop_cons_eq]
      by_cases hb : partMediaType p = plainTypeS ∧ b = []
      · rw [if_pos hb, ih, hrec]
      · have hnh : ¬(partMediaType p = htmlTypeS ∧ (h : Str) = []) := fun hc => hpm hc.1
        rw [if_neg hb, if_neg hnh, ih, hrec]

/-- The part loop from empty accumulators computes exactly the guarded
first-part selections. -/
theorem partsLoop_eq_recorded (ps : List GoPart) :
    partsLoop ps [] [] = (recordedBody ps, recordedHtml ps) := by
  have h1 := partsLoop_fst ps [] []
  have h2 := partsLoop_snd ps [] []
  simp at h1 h2
  exact Prod.ext h1 h2

end Parse

/-! ## Helper lemmas: the query compiler -/

namespace Fts

theorem flushCur_phr (st : ScanState) : (flushCur st).phr = st.phr := by
  unfold flushCur
  cases hc : st.cur with
  | none => rfl
  | some p => cases p; rfl

theorem scanStep_quote (st : ScanState) :
    (scanStep st '"').phr.isSome = !st.phr.isSome := by
  unfold scanStep
  cases hp : st.phr with
  | some p =>
    cases p
    simp
  | none =>
    simp only [Option.isSome_none, Bool.not_false, if_pos rfl]
    cases hc : st.cur with
    | none => simp [flushCur, hc]
    | some p =>
      obtain ⟨n, acc⟩ := p
      cases acc with
      | nil => simp
      | cons a as => simp [flushCur, hc]

theorem scanStep_not_quote (st : ScanState) (c : Char) (hc : ¬ c = '"') :
    (scanStep st c).phr.isSome = st.phr.isSome := by
  unfold scanStep
  cases hp : st.phr with
  | some p =>
    cases p
    simp [hc]
  | none =>
    simp only [if_neg hc]
    by_cases hsp : goIsSpace c = true
    · simp [hsp, flushCur_phr, hp]
    · simp only [hsp, Bool.false_eq_true, if_false]
      by_cases hd : c = '-' ∧ st.cur = none
      · simp [hd]
      · simp only [if_neg hd]
        cases hcur : st.cur with
        | none => simp [hcur, hp]
        | some p =>
          cases p
          simp [hcur, hp]

theorem scan_parity : ∀ (s : Str) (st : ScanState),
    (s.foldl scanStep st).phr.isSome =
      ((st.phr.isSome).xor (decide (countQuote s % 2 = 1))) := by
  intro s
  induction s with
  | nil =>
    intro st
    simp [countQuote]
  | cons c cs ih =>
    intro st
    rw [List.foldl_cons, ih]
    by_cases hc : c = '"'
    · subst hc
      rw [scanStep_quote]
      have hcount : countQuote ('"' :: cs) = 1 + countQuote cs := by
        simp [countQuote]
      have hpar : decide (countQuote ('"' :: cs) % 2 = 1) =
          !decide (countQuote cs % 2 = 1) := by
        rw [hcount]
        rcases Nat.even_or_odd (countQuote cs) with he | ho
        · obtain ⟨k, hk⟩ := he
          have h1 : countQuote cs % 2 = 0 := by omega
          have h2 : (1 + countQuote cs) % 2 = 1 := by omega
          simp [h1, h2]
        · obtain ⟨k, hk⟩ := ho
          have h1 : countQuote cs % 2 = 1 := by omega
          have h2 : (1 + countQuote cs) % 2 = 0 := by omega
          simp [h1, h2]
      rw [hpar]
      cases st.phr.isSome <;> cases decide (countQuote cs % 2 = 1) <;> rfl
    · rw [scanStep_not_quote st c hc]
      have hcount : countQuote (c :: cs) = countQuote cs := by
        simp [countQuote, hc]
      rw [hcount]

/-- Any input with an odd number of double quotes leaves the tokenizer
inside an open phrase, so `fts5_term` rejects it as an unterminated
quote. -/
theorem fts5_term_odd_quotes (s : Str) (h : countQuote s % 2 = 1) :
    fts5_term s = Except.error QueryErr.unterminatedQuote := by
  have hp : (scanQuery s).phr.isSome = true := by
    unfold scanQuery
    rw [scan_parity]
    simp [h]
  unfold fts5_term
  simp only [hp, if_true]

end Fts

/-! ## Claim theorems -/

/-- C1 counterexample: on the raw message `"Subject: x\n \n\nbody"` the
structured parse succeeds and folds the whitespace-only continuation line
into the Subject header value, so the returned subject is `"x "` — it does
not equal its own whitespace-trimmed form, refuting the claim that every
component of the triple is trimmed. -/
theorem claim_C1_counterexample :
    (Parse.parseEmail (fun _ => some []) (fun _ _ => [])
        (("Subject: x\n \n\nbody").toList)).1 ≠
      goTrimSpace ((Parse.parseEmail (fun _ => some []) (fun _ _ => [])
        (("Subject: x\n \n\nbody").toList)).1) := by
  decide

/-- C1 (amended): for every raw input, and every behaviour of the multipart
machinery, `parseEmail` terminates with a triple of strings (it is a total
function, hence also deterministic) whose plain-body and html-body
components equal their own trimmed forms; the subject component is returned
as parsed from the header and may retain trailing whitespace. -/
theorem claim_C1_amended (bnd : Str → Option Str)
    (mp : Str → Str → List Parse.GoPart) (raw : Str) :
    (Parse.parseEmail bnd mp raw).2.1 =
      goTrimSpace (Parse.parseEmail bnd mp raw).2.1 ∧
    (Parse.parseEmail bnd mp raw).2.2 =
      goTrimSpace (Parse.parseEmail bnd mp raw).2.2 := by
  unfold Parse.parseEmail
  cases hm : Parse.readMessage raw with
  | none =>
    have h := Parse.simpleLoop_trimmed (splitNl raw) [] [] [] false false
    exact ⟨h.2.1, h.2.2⟩
  | some pr =>
    obtain ⟨hdr, bodyRest⟩ := pr
    simp only
    split
    · have h := Parse.partsLoop_trimmed
        (mp ((bnd (Parse.headerGet hdr Parse.contentTypeKey)).getD []) bodyRest) [] []
        rfl rfl
      exact ⟨h.1, h.2⟩
    · split
      · exact ⟨rfl, (goTrimSpace_idem bodyRest).symm⟩
      · exact ⟨(goTrimSpace_idem bodyRest).symm, rfl⟩

/-- C2 counterexample: a multipart message whose first `text/plain` part
trims to the empty string.  The part loop then records the second
`text/plain` part, so — contrary to the claim — a later duplicate part does
affect the result. -/
theorem claim_C2_counterexample :
    Parse.partsLoop
        [⟨("text/plain").toList, (" ").toList⟩,
         ⟨("text/plain").toList, ("X").toList⟩] [] [] ≠
      (Parse.claimedFirstBody
        [⟨("text/plain").toList, (" ").toList⟩,
         ⟨("text/plain").toList, ("X").toList⟩],
       Parse.claimedFirstHtml
        [⟨("text/plain").toList, (" ").toList⟩,
         ⟨("text/plain").toList, ("X").toList⟩]) := by
  decide

/-- C2 (amended): the part loop records as plain body the trimmed content of
the first `text/plain` part whose trimmed content is non-empty, and as html
body the trimmed content of the first `text/html` part whose trimmed content
is non-empty; all other parts — in particular every part of a different
media type, and any later duplicate once a non-empty body was recorded —
have no effect on the result. -/
theorem claim_C2_amended (ps : List Parse.GoPart) :
    Parse.partsLoop ps [] [] = (Parse.recordedBody ps, Parse.recordedHtml ps) :=
  Parse.partsLoop_eq_recorded ps

/-- C3 counterexample: two rows with equal timestamps in insertion order
(ids 1 then 2).  That output is admissible for the list-recent query — the
SQL only orders by timestamp descending — yet it is not ordered with ids
descending on the tie, refuting the claimed tiebreak. -/
theorem claim_C3_counterexample :
    Query.listRecentAdmissible [⟨1, 5⟩, ⟨2, 5⟩] [⟨1, 5⟩, ⟨2, 5⟩] ∧
    ¬ Query.tsIdSorted [⟨1, 5⟩, ⟨2, 5⟩] := by
  constructor
  · refine ⟨[⟨1, 5⟩, ⟨2, 5⟩], List.Perm.refl _, ?_, by decide⟩
    unfold Query.tsSorted
    decide
  · unfold Query.tsIdSorted
    decide

/-- C3 (amended): every admissible result of the list-recent and of the
search query is ordered by received timestamp descending and holds at most
100 rows; the relative order of rows with equal timestamps is not
determined by the queries (no identity tiebreaker is requested). -/
theorem claim_C3_amended (p : Query.QRow → Bool) (table out : List Query.QRow)
    (h : Query.listRecentAdmissible table out ∨ Query.searchAdmissible p table out) :
    Query.tsSorted out ∧ out.length ≤ 100 := by
  rcases h with ⟨s, hperm, hsort, hout⟩ | ⟨s, hperm, hsort, hout⟩ <;>
    subst hout <;>
    exact ⟨List.Pairwise.sublist (List.take_sublist _ _) hsort,
      List.length_take_le _ _⟩

theorem claim_C3_amended_witness :
    (Query.listRecentAdmissible [⟨2, 5⟩] [⟨2, 5⟩] ∨
      Query.searchAdmissible (fun _ => true) [⟨2, 5⟩] [⟨2, 5⟩]) ∧
    (Query.tsSorted [⟨2, 5⟩] ∧ ([(⟨2, 5⟩ : Query.QRow)]).length ≤ 100) :=
  have hadm : Query.listRecentAdmissible [⟨2, 5⟩] [⟨2, 5⟩] ∨
      Query.searchAdmissible (fun _ => true) [⟨2, 5⟩] [⟨2, 5⟩] :=
    Or.inl ⟨[⟨2, 5⟩], List.Perm.refl _, by unfold Query.tsSorted; decide, by decide⟩
  ⟨hadm, claim_C3_amended (fun _ => true) [⟨2, 5⟩] [⟨2, 5⟩] hadm⟩

/-- C4: any query string with an odd number of double quotes — in
particular any input with an unterminated quote — is rejected by the query
compiler with the unterminated-quote validation error, and the search
endpoint answers 400 without consulting the store (the response is the same
for every store behaviour `st`). -/
theorem claim_C4 (st : Api.Store) (q : Str) (h : Fts.countQuote q % 2 = 1) :
    Fts.fts5_term q = Except.error Fts.QueryErr.unterminatedQuote ∧
    Api.emailsHandler st q = Api.Outcome.resp Api.Resp.badRequest := by
  have he := Fts.fts5_term_odd_quotes q h
  refine ⟨he, ?_⟩
  have hq : q.isEmpty = false := by
    cases q with
    | nil => simp [Fts.countQuote] at h
    | cons c cs => rfl
  unfold Api.emailsHandler
  rw [hq]
  simp [he]

theorem claim_C4_witness :
    Fts.countQuote (("\"abc").toList) % 2 = 1 ∧
    (Fts.fts5_term (("\"abc").toList) =
        Except.error Fts.QueryErr.unterminatedQuote ∧
      Api.emailsHandler ⟨fun _ => .ok [], .ok [], id⟩ (("\"abc").toList) =
        Api.Outcome.resp Api.Resp.badRequest) :=
  ⟨by decide, claim_C4 ⟨fun _ => .ok [], .ok [], id⟩ (("\"abc").toList) (by decide)⟩

/-- C5: evaluation at the failing operation sequences.  Inserting one
message and then deleting it leaves the table empty but the index entry in
place (the AFTER DELETE trigger re-reads the already-deleted content row
and removes nothing); inserting and then updating the subject leaves the
stale old-value entry beside the new one (the AFTER UPDATE trigger re-reads
the already-updated content row, so its DELETE targets the new values).  In
both final states the claimed exists-iff-with-equal-fields mirror invariant
is violated. -/
theorem claim_C5_bug_eval :
    (DbM.applyOps [DbM.DbOp.ins DbM.exVals, DbM.DbOp.del 1]).emails = [] ∧
    (DbM.applyOps [DbM.DbOp.ins DbM.exVals, DbM.DbOp.del 1]).fts =
      [DbM.mirrorOf 1 DbM.exVals] ∧
    ¬ DbM.consistent (DbM.applyOps [DbM.DbOp.ins DbM.exVals, DbM.DbOp.del 1]) ∧
    (DbM.applyOps [DbM.DbOp.ins DbM.exVals, DbM.DbOp.upd 1 DbM.exVals2]).emails =
      [⟨1, DbM.exVals2⟩] ∧
    (DbM.applyOps [DbM.DbOp.ins DbM.exVals, DbM.DbOp.upd 1 DbM.exVals2]).fts =
      [DbM.mirrorOf 1 DbM.exVals, DbM.mirrorOf 1 DbM.exVals2] ∧
    ¬ DbM.consistent
        (DbM.applyOps [DbM.DbOp.ins DbM.exVals, DbM.DbOp.upd 1 DbM.exVals2]) := by
  refine ⟨by decide, by decide, ?_, by decide, by decide, ?_⟩
  · unfold DbM.consistent
    decide
  · unfold DbM.consistent
    decide

/-- C6: evaluation at the failing input.  With a failing store, a search
request (`q = "x"`) makes the handler panic on the nil rows — the
`err :=` at mailsink.go 304 shadows the outer `err`, so the 500 check at
line 327 never fires — instead of reporting a server-side failure; the
list path does answer 500; and get-by-id answers 404 for a store failure,
exactly as for an absent id, so the two outcomes are not distinct. -/
theorem claim_C6_bug_eval :
    Api.emailsHandler ⟨fun _ => .error (), .error (), id⟩ (("x").toList) =
      Api.Outcome.panicked ∧
    Api.emailsHandler ⟨fun _ => .error (), .error (), id⟩ [] =
      Api.Outcome.resp Api.Resp.serverError ∧
    Api.emailHandler id (.error ()) = Api.Resp.notFound ∧
    Api.emailHandler id (.ok none) = Api.Resp.notFound := by
  exact ⟨by decide, rfl, rfl, rfl⟩

/-- C7 counterexample: the structured parse fails on this input (first line
has no colon), and the header line `Subject: Content-Type: text/html`
matches both described conditions; the code's `else if` gives the Subject
branch priority and never sets the is-html flag, so the body lands in the
plain accumulator — under the claim's reading (independent conditions) it
would land in the html accumulator. -/
theorem claim_C7_counterexample :
    Parse.readMessage
        (("no colon line\nSubject: Content-Type: text/html\n\nabc").toList) = none ∧
    Parse.parseEmail (fun _ => some []) (fun _ _ => [])
        (("no colon line\nSubject: Content-Type: text/html\n\nabc").toList) ≠
      Parse.simpleScanClaimed
        (("no colon line\nSubject: Content-Type: text/html\n\nabc").toList) := by
  exact ⟨by decide, by decide⟩

/-- C7 (amended): whenever the structured parse fails, decompose equals the
line-oriented scan in which, before the first empty line, a line beginning
with `Subject: ` sets the subject (prefix stripped); otherwise a line
containing `Content-Type: text/html` sets the is-html flag; from the first
empty line onward the remaining lines are newline-joined into the html
accumulator if the flag was set, else into the plain accumulator; and the
three results are trimmed of leading/trailing whitespace. -/
theorem claim_C7_amended (bnd : Str → Option Str)
    (mp : Str → Str → List Parse.GoPart) (raw : Str)
    (h : Parse.readMessage raw = none) :
    Parse.parseEmail bnd mp raw = Parse.simpleScanSpec raw := by
  unfold Parse.parseEmail
  rw [h]
  exact Parse.parseEmailSimple_eq_spec raw

theorem claim_C7_amended_witness :
    Parse.readMessage (("x\n\ny").toList) = none ∧
    Parse.parseEmail (fun _ => some []) (fun _ _ => []) (("x\n\ny").toList) =
      Parse.simpleScanSpec (("x\n\ny").toList) :=
  ⟨by decide, claim_C7_amended (fun _ => some []) (fun _ _ => [])
    (("x\n\ny").toList) (by decide)⟩

/-- C8 counterexample: with a store returning zero rows, the list/search
endpoint emits JSON `null` (the Go nil slice), not the empty JSON array the
claim asserts. -/
theorem claim_C8_counterexample :
    Api.emailsHandler ⟨fun _ => .ok [], .ok [], id⟩ [] =
      Api.Outcome.resp (Api.Resp.jsonOk Api.JVal.jnull) ∧
    Api.JVal.jnull ≠ Api.JVal.jarr [] := by
  exact ⟨rfl, by decide⟩

/-- C8 (amended): a successful list or search response is a JSON array of
the (processed) matching records whenever at least one row matches, but
JSON `null` — not an empty array — when zero rows match, because the
handler's nil slice marshals to `null`. -/
theorem claim_C8_amended (st : Api.Store) (q : Str) (rows : List Api.EmailRec)
    (h : (q = [] ∧ st.listRows = Except.ok rows) ∨
      (q ≠ [] ∧ ∃ fq, Fts.fts5_term q = Except.ok fq ∧
        st.searchRows fq = Except.ok rows)) :
    (rows = [] →
      Api.emailsHandler st q = Api.Outcome.resp (Api.Resp.jsonOk Api.JVal.jnull)) ∧
    (rows ≠ [] → ∃ l, l ≠ [] ∧
      Api.emailsHandler st q =
        Api.Outcome.resp (Api.Resp.jsonOk (Api.JVal.jarr l))) := by
  rcases h with ⟨hq, hrows⟩ | ⟨hq, fq, hfq, hrows⟩
  · subst hq
    unfold Api.emailsHandler
    rw [hrows]
    constructor
    · intro h0
      subst h0
      rfl
    · intro hne
      refine ⟨rows.map st.procRow, by simpa using hne, ?_⟩
      cases rows with
      | nil => exact absurd rfl hne
      | cons r rs => rfl
  · have hq2 : q.isEmpty = false := by
      cases q with
      | nil => exact absurd rfl hq
      | cons c cs => rfl
    unfold Api.emailsHandler
    rw [hq2]
    simp only [Bool.not_false, if_true, hfq, hrows]
    constructor
    · intro h0
      subst h0
      rfl
    · intro hne
      refine ⟨rows.map st.procRow, by simpa using hne, ?_⟩
      cases rows with
      | nil => exact absurd rfl hne
      | cons r rs => rfl

theorem claim_C8_amended_witness :
    ∃ l, l ≠ [] ∧
      Api.emailsHandler ⟨fun _ => .ok [], .ok [⟨1, [], []⟩], id⟩ [] =
        Api.Outcome.resp (Api.Resp.jsonOk (Api.JVal.jarr l)) :=
  (claim_C8_amended ⟨fun _ => .ok [], .ok [⟨1, [], []⟩], id⟩ [] [⟨1, [], []⟩]
    (Or.inl ⟨rfl, rfl⟩)).2 (by decide)

/-- C9: if the insert fails, the ingestion handler returns the error, the
stored rows are unchanged and no forwarding is attempted; if the insert
succeeds, the handler returns no error and the rows equal the inserted
state regardless of the forwarding outcome (a forwarding failure is only
logged). -/
theorem claim_C9 {α : Type} (dbInsert : List α → Except Unit (List α))
    (forwardRes : Except Unit Unit) (forwardAddr : Str) (st st2 : List α) :
    (dbInsert st = Except.error () →
      Ingest.mailHandler dbInsert forwardRes forwardAddr st = (some (), st, false)) ∧
    (dbInsert st = Except.ok st2 →
      (Ingest.mailHandler dbInsert forwardRes forwardAddr st).1 = none ∧
      (Ingest.mailHandler dbInsert forwardRes forwardAddr st).2.1 = st2) := by
  constructor
  · intro h
    unfold Ingest.mailHandler
    rw [h]
  · intro h
    unfold Ingest.mailHandler
    rw [h]
    cases hf : forwardAddr.isEmpty with
    | true => simp
    | false =>
      cases forwardRes with
      | error e => simp
      | ok u => simp

theorem claim_C9_witness :
    Ingest.mailHandler (fun _ : List Nat => Except.error ()) (Except.error ())
        (("relay:25").toList) [] = (some (), [], false) ∧
    ((Ingest.mailHandler (fun _ : List Nat => Except.ok [7]) (Except.error ())
        (("relay:25").toList) []).1 = none ∧
      (Ingest.mailHandler (fun _ : List Nat => Except.ok [7]) (Except.error ())
        (("relay:25").toList) []).2.1 = [7]) :=
  ⟨(claim_C9 (fun _ : List Nat => Except.error ()) (Except.error ())
      (("relay:25").toList) [] []).1 rfl,
    (claim_C9 (fun _ : List Nat => Except.ok [7]) (Except.error ())
      (("relay:25").toList) [] [7]).2 rfl⟩

/-- C10: if no line of the raw input is empty after splitting on newlines,
the fallback scan never leaves the header phase, so the returned plain body
and html body are both empty. -/
theorem claim_C10 (raw : Str) (h : ∀ l ∈ splitNl raw, l ≠ []) :
    (Parse.parseEmailSimple raw).2.1 = [] ∧
    (Parse.parseEmailSimple raw).2.2 = [] := by
  unfold Parse.parseEmailSimple
  rw [Parse.simpleLoop_header_phase]
  have hdw : (splitNl raw).dropWhile (fun l => !l.isEmpty) = [] :=
    List.dropWhile_eq_nil_iff.2 (by
      intro x hx
      simpa using h x hx)
  rw [hdw]
  constructor <;> simp [Parse.concatNl, goTrimSpace, trimWith, rtrimWith]

theorem claim_C10_witness :
    (∀ l ∈ splitNl (("abc\ndef").toList), l ≠ []) ∧
    ((Parse.parseEmailSimple (("abc\ndef").toList)).2.1 = [] ∧
      (Parse.parseEmailSimple (("abc\ndef").toList)).2.2 = []) :=
  ⟨by decide, claim_C10 (("abc\ndef").toList) (by decide)⟩

end Mailsink
